import Mathlib

/-!
Verification of the vintel cache engine (file src/vi/cache/cache.py)

A shallow embedding of the `NewCache` / `CacheBase` classes of
`src/vi/cache/cache.py`.  Python strings are embedded as `List Char`,
Python values stored in the cache as the inductive `PyVal`, the sqlite
`cache` table as a `List Row`, and every fallible operation returns
`Except Err _` (a raised Python exception becomes an `Except.error`).
`pickle.dumps` / `pickle.loads` are modelled by an executable serializer
for `PyVal` together with a proof that deserialization inverts
serialization, matching the round-trip contract the code relies on.
-/

/-- Python strings are embedded as lists of characters. -/
abbrev Str := List Char

/-!
Python values

`PyVal` models the values the cache stores: integers, text strings,
`None`, and structured objects built from lists, tuples and dicts.
The three types are mutually inductive so that lists/tuples/dicts can
nest arbitrary values, as in Python.
-/

mutual

inductive PyVal where
  | pyint (n : Int)
  | pystr (s : Str)
  | pynone
  | pylist (xs : PyList)
  | pytuple (xs : PyList)
  | pydict (xs : PyPairs)

inductive PyList where
  | nil
  | cons (v : PyVal) (tl : PyList)

inductive PyPairs where
  | nil
  | cons (k : PyVal) (v : PyVal) (tl : PyPairs)

end

/-!
The pickle model

`pickle.dumps` is modelled by `serV`, a flat token stream for `PyVal`;
`pickle.loads` by a fuel-indexed parser.  `Tok` is the token alphabet of
the serialized form (the "blob" stored in the `blobdata` column is a
`List Tok`).
-/

inductive Tok where
  | tint (n : Int)
  | tstr (s : Str)
  | tnone
  | tlist
  | ttuple
  | tdict
  | tend
deriving DecidableEq

mutual

def serV : PyVal → List Tok
  | .pyint n => [.tint n]
  | .pystr s => [.tstr s]
  | .pynone => [.tnone]
  | .pylist xs => .tlist :: (serL xs ++ [.tend])
  | .pytuple xs => .ttuple :: (serL xs ++ [.tend])
  | .pydict ps => .tdict :: (serP ps ++ [.tend])

def serL : PyList → List Tok
  | .nil => []
  | .cons v tl => serV v ++ serL tl

def serP : PyPairs → List Tok
  | .nil => []
  | .cons k v tl => serV k ++ serV v ++ serP tl

end

mutual

def parseV : Nat → List Tok → Option (PyVal × List Tok)
  | 0, _ => none
  | _ + 1, [] => none
  | _ + 1, .tint n :: rest => some (.pyint n, rest)
  | _ + 1, .tstr s :: rest => some (.pystr s, rest)
  | _ + 1, .tnone :: rest => some (.pynone, rest)
  | f + 1, .tlist :: rest =>
      (parseL f rest).bind fun xr => some (.pylist xr.1, xr.2)
  | f + 1, .ttuple :: rest =>
      (parseL f rest).bind fun xr => some (.pytuple xr.1, xr.2)
  | f + 1, .tdict :: rest =>
      (parseP f rest).bind fun pr => some (.pydict pr.1, pr.2)
  | _ + 1, .tend :: _ => none

def parseL : Nat → List Tok → Option (PyList × List Tok)
  | 0, _ => none
  | f + 1, toks =>
      if toks.head? = some Tok.tend then
        some (.nil, toks.tail)
      else
        (parseV f toks).bind fun vr =>
          (parseL f vr.2).bind fun tr => some (.cons vr.1 tr.1, tr.2)

def parseP : Nat → List Tok → Option (PyPairs × List Tok)
  | 0, _ => none
  | f + 1, toks =>
      if toks.head? = some Tok.tend then
        some (.nil, toks.tail)
      else
        (parseV f toks).bind fun kr =>
          (parseV f kr.2).bind fun vr =>
            (parseP f vr.2).bind fun tr => some (.cons kr.1 vr.1 tr.1, tr.2)

end

/-- Model of `pickle.dumps`: the blob written for a structured value. -/
def pickle_dumps (v : PyVal) : List Tok := serV v

/-- Model of `pickle.loads`: parse a blob back to a value; `none` models an
unpickling failure. -/
def pickle_loads (toks : List Tok) : Option PyVal :=
  match parseV (toks.length + 1) toks with
  | some (v, []) => some v
  | _ => none

/-- Every serialized value occupies at least one token. -/
theorem one_le_serV_length (v : PyVal) : 1 ≤ (serV v).length := by
  cases v <;> simp [serV]

/-- The serialized form of a value never begins with the terminator token. -/
theorem serV_append_head_ne_tend (v : PyVal) (l : List Tok) :
    ¬ (serV v ++ l).head? = some Tok.tend := by
  cases v <;> simp [serV]

/-- Soundness of the parser against the serializer, at every sufficient
fuel: parsing a serialized value consumes exactly its tokens. -/
theorem parse_sound (fuel : Nat) :
    (∀ (v : PyVal) (rest : List Tok), (serV v).length ≤ fuel →
      parseV fuel (serV v ++ rest) = some (v, rest)) ∧
    (∀ (xs : PyList) (rest : List Tok), (serL xs).length + 1 ≤ fuel →
      parseL fuel (serL xs ++ Tok.tend :: rest) = some (xs, rest)) ∧
    (∀ (ps : PyPairs) (rest : List Tok), (serP ps).length + 1 ≤ fuel →
      parseP fuel (serP ps ++ Tok.tend :: rest) = some (ps, rest)) := by
  induction fuel using Nat.strong_induction_on with
  | _ fuel ih =>
    match fuel with
    | 0 =>
      refine ⟨fun v rest h => ?_, fun xs rest h => ?_, fun ps rest h => ?_⟩
      · exact absurd (le_trans (one_le_serV_length v) h) (by simp)
      · omega
      · omega
    | f + 1 =>
      obtain ⟨ihV, ihL, ihP⟩ := ih f (Nat.lt_succ_self f)
      refine ⟨fun v rest h => ?_, fun xs rest h => ?_, fun ps rest h => ?_⟩
      · cases v with
        | pyint n => simp [serV, parseV]
        | pystr s => simp [serV, parseV]
        | pynone => simp [serV, parseV]
        | pylist xs =>
          have harr : serV (.pylist xs) ++ rest =
              Tok.tlist :: (serL xs ++ Tok.tend :: rest) := by
            simp [serV]
          have hlen : (serL xs).length + 1 ≤ f := by
            simp only [serV, List.length_cons, List.length_append] at h
            omega
          rw [harr, parseV, ihL xs rest hlen]
          rfl
        | pytuple xs =>
          have harr : serV (.pytuple xs) ++ rest =
              Tok.ttuple :: (serL xs ++ Tok.tend :: rest) := by
            simp [serV]
          have hlen : (serL xs).length + 1 ≤ f := by
            simp only [serV, List.length_cons, List.length_append] at h
            omega
          rw [harr, parseV, ihL xs rest hlen]
          rfl
        | pydict ps =>
          have harr : serV (.pydict ps) ++ rest =
              Tok.tdict :: (serP ps ++ Tok.tend :: rest) := by
            simp [serV]
          have hlen : (serP ps).length + 1 ≤ f := by
            simp only [serV, List.length_cons, List.length_append] at h
            omega
          rw [harr, parseV, ihP ps rest hlen]
          rfl
      · cases xs with
        | nil =>
          rw [serL, List.nil_append, parseL]
          simp
        | cons v tl =>
          have harr : serL (.cons v tl) ++ Tok.tend :: rest =
              serV v ++ (serL tl ++ Tok.tend :: rest) := by
            simp [serL]
          have hv : (serV v).length ≤ f := by
            rw [serL, List.length_append] at h
            have := one_le_serV_length v
            omega
          have htl : (serL tl).length + 1 ≤ f := by
            rw [serL, List.length_append] at h
            have := one_le_serV_length v
            omega
          rw [harr, parseL,
            if_neg (serV_append_head_ne_tend v (serL tl ++ Tok.tend :: rest)),
            ihV v _ hv, Option.some_bind, ihL tl rest htl]
          rfl
      · cases ps with
        | nil =>
          rw [serP, List.nil_append, parseP]
          simp
        | cons k v tl =>
          have harr : serP (.cons k v tl) ++ Tok.tend :: rest =
              serV k ++ (serV v ++ (serP tl ++ Tok.tend :: rest)) := by
            simp [serP]
          have hk : (serV k).length ≤ f := by
            rw [serP, List.length_append, List.length_append] at h
            have := one_le_serV_length k
            have := one_le_serV_length v
            omega
          have hv : (serV v).length ≤ f := by
            rw [serP, List.length_append, List.length_append] at h
            have := one_le_serV_length k
            have := one_le_serV_length v
            omega
          have htl : (serP tl).length + 1 ≤ f := by
            rw [serP, List.length_append, List.length_append] at h
            have := one_le_serV_length k
            have := one_le_serV_length v
            omega
          rw [harr, parseP,
            if_neg (serV_append_head_ne_tend k _),
            ihV k _ hk, Option.some_bind, ihV v _ hv, Option.some_bind,
            ihP tl rest htl]
          rfl

/-- Round trip of the pickle model: loading a dumped value yields the
value back. -/
theorem pickle_loads_dumps (v : PyVal) : pickle_loads (pickle_dumps v) = some v := by
  have h := (parse_sound ((serV v).length + 1)).1 v [] (Nat.le_succ _)
  rw [pickle_loads, pickle_dumps]
  rw [List.append_nil] at h
  rw [h]

/-!
Errors

Raised Python exceptions are modelled as `Except.error` values.
-/

inductive Err where
  /-- `sqlite3.OperationalError`, e.g. a query naming a column that does
  not exist in the schema. -/
  | operationalError
  /-- `sqlite3.IntegrityError`, raised by an INSERT that violates the
  `key VARCHAR PRIMARY KEY` constraint. -/
  | integrityError
  /-- The `ValueError` raised by `_get_expiry` when no expiry is passed
  and no default was configured (called MissingExpiry by the spec). -/
  | missingExpiry
  /-- A decode failure in `to_python` (all three fields null, or the blob
  does not unpickle; called CorruptEntry by the spec). -/
  | corruptEntry
deriving DecidableEq

/-!
The cache table

One sqlite row of `cache (key VARCHAR PRIMARY KEY, blobdata BLOB,
intdata INT, stringdata VARCHAR, expires INT NOT NULL)`; the table is a
list of rows.
-/

structure Row where
  key : Str
  blobdata : Option (List Tok)
  intdata : Option Int
  stringdata : Option Str
  expires : Int
deriving DecidableEq

/-- Embedding of `DELETE FROM cache WHERE key = ?`.  The parameter is compared against
the TEXT-affinity `key` column, so an integer argument is compared by its
decimal text. -/
def sqlDeleteKey (db : List Row) (k : Str) : List Row :=
  db.filter (fun r => r.key != k)

/-- Embedding of `DELETE FROM cache WHERE key IN (?, ..., ?)`. -/
def sqlDeleteKeys (db : List Row) (ks : List Str) : List Row :=
  db.filter (fun r => ¬ ks.contains r.key)

/-- Embedding of `INSERT INTO cache ...`: fails with `IntegrityError` when a row with
the same primary key already exists. -/
def sqlInsert (db : List Row) (r : Row) : Except Err (List Row) :=
  if db.any (fun r2 => r2.key == r.key) then .error .integrityError
  else .ok (db ++ [r])

/-!
The NewCache accessor
-/

/-- The state `NewCache.__init__` stores: `self._expires` (with `none`
modelling the `DEFAULT_EXPIRES` sentinel, i.e. no default) and
`self._key_prefix` (with `none` modelling Python `None`). -/
structure NewCache where
  defaultExpires : Option Int
  keyPrefix : Option Str
deriving DecidableEq

/-- Keys passed by callers to get/set/delete: text or integer. -/
inductive PKey where
  | kint (n : Int)
  | kstr (s : Str)
deriving DecidableEq

/-- Python `str()` applied to a key segment. -/
def pkeyStr : PKey → Str
  | .kint n => (toString n).toList
  | .kstr s => s

/-- Embedding of the Python colon join of a list of strings. -/
def joinColon : List Str → Str
  | [] => []
  | [s] => s
  | s :: rest => s ++ ':' :: joinColon rest

/-- Embedding of `NewCache._get_key`: the non-None segments among
the key prefix, the section and the key, each passed through `str`, are
joined by a colon.  The prefix and section are strings (or `None`), so
`str` leaves them unchanged; the key is always present and
stringified. -/
def NewCache._get_key (c : NewCache) (key : PKey) (sec : Option Str) : Str :=
  joinColon ((c.keyPrefix.toList ++ sec.toList) ++ [pkeyStr key])

/-- Embedding of `NewCache._reverse_key`: drop from the front of the
stored key as many characters as the full key of the empty string key
has. -/
def NewCache._reverse_key (c : NewCache) (key : Str) (sec : Option Str) : Str :=
  key.drop (c._get_key (.kstr []) sec).length

/-- Embedding of `NewCache._get_expiry`: an explicit expiry wins; otherwise the
accessor default; otherwise `ValueError` ("No expiry set and no default
expires set"). -/
def NewCache._get_expiry (c : NewCache) (expires : Option Int) : Except Err Int :=
  match expires with
  | some e => .ok e
  | none =>
    match c.defaultExpires with
    | none => .error .missingExpiry
    | some d => .ok d

/-- Embedding of `NewCache.from_python`: integers to the `intdata` slot, text to the
`stringdata` slot, everything else pickled into the `blobdata` slot. -/
def NewCache.from_python : PyVal → Option (List Tok) × Option Int × Option Str
  | .pyint n => (none, some n, none)
  | .pystr s => (none, none, some s)
  | .pynone => (some (pickle_dumps .pynone), none, none)
  | .pylist xs => (some (pickle_dumps (.pylist xs)), none, none)
  | .pytuple xs => (some (pickle_dumps (.pytuple xs)), none, none)
  | .pydict ps => (some (pickle_dumps (.pydict ps)), none, none)

/-- Embedding of `NewCache.to_python`: return `intdata` or `stringdata` if non-null
(in that order), otherwise unpickle the blob; a null blob or an
unpickling failure raises. -/
def NewCache.to_python (fields : Option (List Tok) × Option Int × Option Str) :
    Except Err PyVal :=
  match fields with
  | (_, some n, _) => .ok (.pyint n)
  | (_, none, some s) => .ok (.pystr s)
  | (some blob, none, none) =>
    match pickle_loads blob with
    | some v => .ok v
    | none => .error .corruptEntry
  | (none, none, none) => .error .corruptEntry

/-- Embedding of `NewCache.get`.  The source builds
`SELECT ... FROM cache WHERE key = ? {expired}` and, when `allowExpired`
is true, substitutes `AND expired <= ?` for `{expired}` — but the cache
table has no column named `expired`, so sqlite raises
`OperationalError`; when `allowExpired` is false no expiry filter at all
is applied.  `_now` is computed by the source but only ever bound to the
failing query. -/
def NewCache.get (c : NewCache) (_now : Int) (db : List Row) (key : PKey)
    (default : Option PyVal) (sec : Option Str) (allowExpired : Bool) :
    Except Err PyVal :=
  let fullkey := c._get_key key sec
  if allowExpired then
    .error .operationalError
  else
    match db.find? (fun r => r.key == fullkey) with
    | some r => NewCache.to_python (r.blobdata, r.intdata, r.stringdata)
    | none => .ok (match default with | none => .pynone | some d => d)

/-- Python dict assignment `data[key] = v` on an association list. -/
def dictInsert (d : List (Str × PyVal)) (k : Str) (v : PyVal) :
    List (Str × PyVal) :=
  if d.any (fun kv => kv.1 == k) then
    d.map (fun kv => if kv.1 == k then (k, v) else kv)
  else d ++ [(k, v)]

/-- Embedding of `NewCache.get_many`.  Same `{expired}` substitution bug as `get`
(here `AND expired < ?`), so `allowExpired = true` raises
`OperationalError`; otherwise every row whose key is in the requested
full-key list is returned, keyed by `_reverse_key` of its stored key,
with no expiry filter. -/
def NewCache.get_many (c : NewCache) (_now : Int) (db : List Row)
    (keys : List PKey) (sec : Option Str) (allowExpired : Bool) :
    Except Err (List (Str × PyVal)) :=
  if allowExpired then
    .error .operationalError
  else
    let fullkeys := keys.map (fun k => c._get_key k sec)
    (db.filter (fun r => fullkeys.contains r.key)).foldlM
      (fun data r => do
        let v ← NewCache.to_python (r.blobdata, r.intdata, r.stringdata)
        pure (dictInsert data (c._reverse_key r.key sec) v)) []

/-- Embedding of `NewCache.set`.  Faithful to the source: the expiry is resolved
(possibly raising), the magnitude heuristic is applied, and then — as on
line 241 of the source — the DELETE binds the *raw* `key` argument while
the INSERT uses the full key from `_get_key`. -/
def NewCache.set (c : NewCache) (now : Int) (db : List Row) (key : PKey)
    (value : PyVal) (expires : Option Int) (sec : Option Str) :
    Except Err (List Row) := do
  let e ← c._get_expiry expires
  let e := if e > 60 * 60 * 24 * 7 then e else now + e
  let fp := NewCache.from_python value
  let db1 := sqlDeleteKey db (pkeyStr key)
  sqlInsert db1 ⟨c._get_key key sec, fp.1, fp.2.1, fp.2.2, e⟩

/-- Embedding of `NewCache.set_many`.  As in the source, the batch DELETE binds the
raw keys of `data` while the INSERTs use full keys; `executemany` stops
at the first failing INSERT and nothing is committed on error. -/
def NewCache.set_many (c : NewCache) (now : Int) (db : List Row)
    (data : List (PKey × PyVal)) (expires : Option Int) (sec : Option Str) :
    Except Err (List Row) := do
  let e ← c._get_expiry expires
  let e := if e > 60 * 60 * 24 * 7 then e else now + e
  let params := data.map (fun kv =>
    (⟨c._get_key kv.1 sec, (NewCache.from_python kv.2).1,
      (NewCache.from_python kv.2).2.1, (NewCache.from_python kv.2).2.2, e⟩ : Row))
  let db1 := sqlDeleteKeys db (data.map (fun kv => pkeyStr kv.1))
  params.foldlM sqlInsert db1

/-- The argument type of `NewCache.delete`: the source wraps the key in a
singleton list on each recursive call, so the argument nests without
bound. -/
inductive DKey where
  | base (k : PKey)
  | wrap (k : DKey)

/-- Embedding of `NewCache.delete`.  The source reads
`def delete(self, key, section=None): self.delete([key], section=section)` —
it calls *itself* with the key wrapped in a list, not `delete_many`.
Modelled with explicit fuel; `none` means the call has not returned
within `fuel` recursive calls. -/
def NewCache.delete (c : NewCache) (db : List Row) (sec : Option Str) :
    Nat → DKey → Option (List Row)
  | 0, _ => none
  | fuel + 1, k => NewCache.delete c db sec fuel (.wrap k)

/-- Embedding of `NewCache.delete_many`: `DELETE FROM cache WHERE key IN (...)` with
the full keys of all requested keys. -/
def NewCache.delete_many (c : NewCache) (db : List Row) (keys : List PKey)
    (sec : Option Str) : List Row :=
  sqlDeleteKeys db (keys.map (fun k => c._get_key k sec))

/-!
The schema migrator (CacheBase)

The on-disk schema is modelled as the two tables the migration creates:
`version` (a bag of integers, `none` while the table does not exist) and
`cache` (`none` while it does not exist).  The statements appearing in
`CacheBase.UPDATES` are modelled individually.
-/

structure DBSchema where
  versionTable : Option (List Int)
  cacheTable : Option (List Row)
deriving DecidableEq

/-- The three DDL/DML statements of patch set 1 in `CacheBase.UPDATES`. -/
inductive Stmt where
  | createVersionTable
  | insertVersion0
  | createCacheTable
deriving DecidableEq

def CacheBase.CURRENT_VERSION : Int := 1

/-- Embedding of `CacheBase.UPDATES`: the ordered list of `(patchlevel, statements)`. -/
def CacheBase.UPDATES : List (Int × List Stmt) :=
  [(1, [.createVersionTable, .insertVersion0, .createCacheTable])]

/-- Executing one statement: `CREATE TABLE` fails if the table already
exists, `INSERT INTO version` fails if the table does not exist. -/
def execStmt (s : DBSchema) : Stmt → Except Err DBSchema
  | .createVersionTable =>
    if s.versionTable.isSome then .error .operationalError
    else .ok { s with versionTable := some [] }
  | .insertVersion0 =>
    match s.versionTable with
    | none => .error .operationalError
    | some rows => .ok { s with versionTable := some (rows ++ [0]) }
  | .createCacheTable =>
    if s.cacheTable.isSome then .error .operationalError
    else .ok { s with cacheTable := some [] }

/-- Embedding of `SELECT version FROM version` with the exception
handling of the source:
a missing table ("no such table" `OperationalError`) or an empty table
(`IndexError`) both leave `version = 0`; otherwise the first row. -/
def readVersion (s : DBSchema) : Int :=
  match s.versionTable with
  | none => 0
  | some [] => 0
  | some (v :: _) => v

/-- The query list `check_version` builds: the statements of every patch
set whose patchlevel exceeds the recorded version, in order. -/
def selectedQueries (version : Int) : List Stmt :=
  (CacheBase.UPDATES.filter (fun p => version < p.1)).foldl
    (fun acc p => acc ++ p.2) []

/-- Embedding of `UPDATE version SET version = ?`. -/
def execUpdateVersion (s : DBSchema) (v : Int) : Except Err DBSchema :=
  match s.versionTable with
  | none => .error .operationalError
  | some rows => .ok { s with versionTable := some (rows.map (fun _ => v)) }

/-- Embedding of `CacheBase.cleanup`: `DELETE FROM cache WHERE expires < ?` at the
current time (the expiry sweeper). -/
def CacheBase.cleanup (now : Int) (s : DBSchema) : Except Err DBSchema :=
  match s.cacheTable with
  | none => .error .operationalError
  | some rows =>
    .ok { s with cacheTable := some (rows.filter (fun r => !decide (r.expires < now))) }

/-- Embedding of `CacheBase.check_version`: read the recorded version (0 when absent),
run every patch set above it, record `CURRENT_VERSION` if the read
version differs, then sweep expired rows. -/
def CacheBase.check_version (now : Int) (s : DBSchema) : Except Err DBSchema := do
  let version := readVersion s
  let s ← (selectedQueries version).foldlM execStmt s
  let s ←
    if version ≠ CacheBase.CURRENT_VERSION then
      execUpdateVersion s CacheBase.CURRENT_VERSION
    else pure s
  CacheBase.cleanup now s

/-- A freshly created store: the sqlite file exists but holds no tables,
so the recorded version reads as 0. -/
def freshStore : DBSchema := ⟨none, none⟩

/-- The store produced by migrating a fresh store: version table
recording `CURRENT_VERSION`, empty cache table. -/
def migratedStore : DBSchema := ⟨some [1], some []⟩

/-!
Claim theorems
-/

/-- C3 (refutation of termination): `NewCache.delete` calls itself with
the key wrapped in a fresh singleton list, so for every fuel bound the
call fails to return; it never removes anything and never completes
normally. -/
theorem delete_never_returns (c : NewCache) (db : List Row) (sec : Option Str)
    (fuel : Nat) (k : DKey) : NewCache.delete c db sec fuel k = none := by
  induction fuel generalizing k with
  | zero => rfl
  | succ n ih => rw [NewCache.delete]; exact ih _

/-- C1 (code evaluated at the failing input): a `set` whose expiry
resolves to `now - 1` is *returned* by `get` with `allowExpired = false`
(the stale row is not filtered), while `get` with `allowExpired = true`
raises `OperationalError` because the generated query names the
non-existent column `expired`. -/
theorem get_expired_row_divergence :
    (NewCache.set ⟨none, none⟩ 1000000 [] (.kstr "k".toList) (.pyint 42)
        (some (-1)) none
      = .ok [⟨"k".toList, none, some 42, none, 999999⟩]) ∧
    (NewCache.get ⟨none, none⟩ 1000000
        [⟨"k".toList, none, some 42, none, 999999⟩]
        (.kstr "k".toList) (some (.pyint 0)) none false
      = .ok (.pyint 42)) ∧
    (NewCache.get ⟨none, none⟩ 1000000
        [⟨"k".toList, none, some 42, none, 999999⟩]
        (.kstr "k".toList) (some (.pyint 0)) none true
      = .error .operationalError) := by
  refine ⟨?_, ?_, ?_⟩ <;> rfl

/-- C2 (code evaluated at the failing input): with key prefix `"p"`, the
DELETE inside `set` binds the raw key `"k"` while the row is stored
under the full key `"p:k"`, so a second `set` of the same key does not
replace the row — it hits the PRIMARY KEY and raises `IntegrityError`. -/
theorem set_replace_divergence :
    (NewCache.set ⟨none, some "p".toList⟩ 0 [] (.kstr "k".toList) (.pyint 1)
        (some 700000) none
      = .ok [⟨"p:k".toList, none, some 1, none, 700000⟩]) ∧
    (NewCache.set ⟨none, some "p".toList⟩ 0
        [⟨"p:k".toList, none, some 1, none, 700000⟩]
        (.kstr "k".toList) (.pyint 2) (some 700000) none
      = .error .integrityError) := by
  exact ⟨rfl, rfl⟩

/-- C4: the codec round-trips every supported value: integers come back
from the `intdata` slot, text from the `stringdata` slot, and every
other value from unpickling the blob. -/
theorem to_python_from_python (v : PyVal) :
    NewCache.to_python (NewCache.from_python v) = .ok v := by
  cases v with
  | pyint n => rfl
  | pystr s => rfl
  | pynone => simp [NewCache.from_python, NewCache.to_python, pickle_loads_dumps]
  | pylist xs => simp [NewCache.from_python, NewCache.to_python, pickle_loads_dumps]
  | pytuple xs => simp [NewCache.from_python, NewCache.to_python, pickle_loads_dumps]
  | pydict ps => simp [NewCache.from_python, NewCache.to_python, pickle_loads_dumps]

/-- Unfolding `joinColon` on a list of at least two segments. -/
theorem joinColon_cons_cons (s r1 : Str) (rest : List Str) :
    joinColon (s :: r1 :: rest) = s ++ ':' :: joinColon (r1 :: rest) := rfl

/-- Appending the final key segment after the joined prefix segments. -/
theorem joinColon_append_single (l : List Str) (k : Str) :
    joinColon (l ++ [k]) = joinColon (l ++ [[]]) ++ k := by
  induction l with
  | nil => simp [joinColon]
  | cons s rest ih =>
    cases rest with
    | nil => simp [joinColon]
    | cons r1 r2 =>
      simp only [List.cons_append] at ih ⊢
      rw [joinColon_cons_cons, joinColon_cons_cons, ih]
      simp

/-- The full key is the empty-key full key followed by the key itself. -/
theorem get_key_append (c : NewCache) (sec : Option Str) (key : Str) :
    c._get_key (.kstr key) sec = c._get_key (.kstr []) sec ++ key := by
  rw [NewCache._get_key, NewCache._get_key]
  exact joinColon_append_single _ _

/-- C5: `_reverse_key` recovers the logical key from the full key, for
every prefix, section and string key (no collision hypothesis is even
needed: the reversal strips a fixed-length prefix rather than splitting
on the colon). -/
theorem reverse_key_get_key (c : NewCache) (sec : Option Str) (key : Str) :
    c._reverse_key (c._get_key (.kstr key) sec) sec = key := by
  rw [NewCache._reverse_key, get_key_append c sec key]
  exact List.drop_left _ _

/-- Reduction of `NewCache.set` once the expiry resolves. -/
theorem set_eq_of_expiry (c : NewCache) (now : Int) (db : List Row) (k : PKey)
    (v : PyVal) (e : Option Int) (e0 : Int) (sec : Option Str)
    (h : c._get_expiry e = .ok e0) :
    NewCache.set c now db k v e sec =
      sqlInsert (sqlDeleteKey db (pkeyStr k))
        ⟨c._get_key k sec, (NewCache.from_python v).1,
          (NewCache.from_python v).2.1, (NewCache.from_python v).2.2,
          if e0 > 60 * 60 * 24 * 7 then e0 else now + e0⟩ := by
  unfold NewCache.set
  rw [h]
  rfl

/-- Lemma: `NewCache.set` propagates a failing expiry resolution unchanged. -/
theorem set_eq_of_expiry_err (c : NewCache) (now : Int) (db : List Row) (k : PKey)
    (v : PyVal) (e : Option Int) (err : Err) (sec : Option Str)
    (h : c._get_expiry e = .error err) :
    NewCache.set c now db k v e sec = .error err := by
  unfold NewCache.set
  rw [h]
  rfl

/-- The row list `set_many` builds for a batch at resolved expiry `e0`. -/
def setManyRows (c : NewCache) (now : Int) (data : List (PKey × PyVal))
    (e0 : Int) (sec : Option Str) : List Row :=
  data.map (fun kv =>
    (⟨c._get_key kv.1 sec, (NewCache.from_python kv.2).1,
      (NewCache.from_python kv.2).2.1, (NewCache.from_python kv.2).2.2,
      if e0 > 60 * 60 * 24 * 7 then e0 else now + e0⟩ : Row))

/-- Reduction of `NewCache.set_many` once the expiry resolves. -/
theorem set_many_eq_of_expiry (c : NewCache) (now : Int) (db : List Row)
    (data : List (PKey × PyVal)) (e : Option Int) (e0 : Int) (sec : Option Str)
    (h : c._get_expiry e = .ok e0) :
    NewCache.set_many c now db data e sec =
      (setManyRows c now data e0 sec).foldlM sqlInsert
        (sqlDeleteKeys db (data.map (fun kv => pkeyStr kv.1))) := by
  unfold NewCache.set_many
  rw [h]
  rfl

/-- Lemma: `NewCache.set_many` propagates a failing expiry resolution unchanged. -/
theorem set_many_eq_of_expiry_err (c : NewCache) (now : Int) (db : List Row)
    (data : List (PKey × PyVal)) (e : Option Int) (err : Err) (sec : Option Str)
    (h : c._get_expiry e = .error err) :
    NewCache.set_many c now db data e sec = .error err := by
  unfold NewCache.set_many
  rw [h]
  rfl

/-- Lemma: a successful batch of INSERTs appends exactly the inserted
rows. -/
theorem foldlM_sqlInsert_ok_eq (params : List Row) :
    ∀ (db1 db2 : List Row), params.foldlM sqlInsert db1 = .ok db2 →
      db2 = db1 ++ params := by
  induction params with
  | nil =>
    intro db1 db2 hf
    cases hf
    simp
  | cons p tl ih =>
    intro db1 db2 hf
    rw [List.foldlM_cons] at hf
    cases hins : sqlInsert db1 p with
    | error err =>
      rw [hins] at hf
      cases hf
    | ok db3 =>
      rw [hins] at hf
      have hdb3 : db3 = db1 ++ [p] := by
        rw [sqlInsert] at hins
        split at hins
        · cases hins
        · cases hins
          rfl
      rw [ih db3 db2 hf, hdb3]
      simp

/-- C6: when the resolved expiry is `e`, a successful `set` stores under
the full key a row whose `expires` is `e` itself exactly when `e`
exceeds the number of seconds in one week (`60*60*24*7 = 604800`) and
`now + e` (duration semantics) otherwise; a successful `set_many`
stores such a row for every key of the batch. -/
theorem set_expiry_heuristic (c : NewCache) (now e : Int) (eo : Option Int)
    (db db2 db3 : List Row) (k : PKey) (v : PyVal)
    (data : List (PKey × PyVal)) (sec : Option Str)
    (hres : c._get_expiry eo = .ok e) :
    (NewCache.set c now db k v eo sec = .ok db2 →
      ∃ r ∈ db2, r.key = c._get_key k sec ∧
        ((60 * 60 * 24 * 7 < e ∧ r.expires = e) ∨
         (e ≤ 60 * 60 * 24 * 7 ∧ r.expires = now + e))) ∧
    (NewCache.set_many c now db data eo sec = .ok db3 →
      ∀ kv ∈ data, ∃ r ∈ db3, r.key = c._get_key kv.1 sec ∧
        ((60 * 60 * 24 * 7 < e ∧ r.expires = e) ∨
         (e ≤ 60 * 60 * 24 * 7 ∧ r.expires = now + e))) := by
  constructor
  · intro h
    rw [set_eq_of_expiry c now db k v eo e sec hres] at h
    by_cases hgt : e > 60 * 60 * 24 * 7
    · rw [if_pos hgt, sqlInsert] at h
      split at h
      · cases h
      · cases h
        exact ⟨_, List.mem_append_right _ (List.mem_singleton_self _), rfl,
          Or.inl ⟨hgt, rfl⟩⟩
    · rw [if_neg hgt, sqlInsert] at h
      split at h
      · cases h
      · cases h
        exact ⟨_, List.mem_append_right _ (List.mem_singleton_self _), rfl,
          Or.inr ⟨by omega, rfl⟩⟩
  · intro h kv hkv
    rw [set_many_eq_of_expiry c now db data eo e sec hres] at h
    have hdb3 := foldlM_sqlInsert_ok_eq _ _ _ h
    refine ⟨⟨c._get_key kv.1 sec, (NewCache.from_python kv.2).1,
      (NewCache.from_python kv.2).2.1, (NewCache.from_python kv.2).2.2,
      if e > 60 * 60 * 24 * 7 then e else now + e⟩, ?_, rfl, ?_⟩
    · rw [hdb3]
      refine List.mem_append_right _ ?_
      rw [setManyRows]
      exact List.mem_map.mpr ⟨kv, hkv, rfl⟩
    · by_cases hgt : e > 60 * 60 * 24 * 7
      · exact Or.inl ⟨hgt, by rw [if_pos hgt]⟩
      · exact Or.inr ⟨by omega, by rw [if_neg hgt]⟩

/-- Applying `set_expiry_heuristic` at a concrete call: an explicit
expiry of 5 seconds at `now = 100` stores `100 + 5`. -/
theorem set_expiry_heuristic_witness :
    (NewCache._get_expiry ⟨none, none⟩ (some 5) = .ok 5) ∧
    ∃ r ∈ [(⟨"k".toList, none, some 1, none, 105⟩ : Row)],
      r.key = NewCache._get_key ⟨none, none⟩ (.kstr "k".toList) none ∧
      ((60 * 60 * 24 * 7 < (5 : Int) ∧ r.expires = 5) ∨
       ((5 : Int) ≤ 60 * 60 * 24 * 7 ∧ r.expires = 100 + 5)) :=
  ⟨rfl, (set_expiry_heuristic ⟨none, none⟩ 100 5 (some 5) []
      [⟨"k".toList, none, some 1, none, 105⟩] [] (.kstr "k".toList) (.pyint 1)
      [] none rfl).1 rfl⟩

/-- A single INSERT can only fail with `IntegrityError`, never with the
missing-expiry error. -/
theorem sqlInsert_ne_missing (db : List Row) (r : Row) :
    sqlInsert db r ≠ .error .missingExpiry := by
  rw [sqlInsert]
  split
  · intro h
    exact Err.noConfusion (Except.error.inj h)
  · intro h
    cases h

/-- A batch of INSERTs can only fail with `IntegrityError`, never with
the missing-expiry error. -/
theorem foldlM_sqlInsert_ne_missing (params : List Row) (db : List Row) :
    params.foldlM sqlInsert db ≠ .error .missingExpiry := by
  induction params generalizing db with
  | nil =>
    intro h
    cases h
  | cons r tl ih =>
    rw [List.foldlM_cons]
    cases hins : sqlInsert db r with
    | error err =>
      intro hcon
      exact sqlInsert_ne_missing db r (by rw [hins, Except.error.inj hcon])
    | ok db2 =>
      intro hcon
      exact ih db2 hcon

/-- C7: a `set` or `set_many` with no explicit expiry on an accessor with
no default fails with the missing-expiry `ValueError` — and, the error
being raised before any SQL runs, the failing call returns no modified
table; with an explicit expiry or a default present, that error is never
raised. -/
theorem set_missing_expiry (c : NewCache) (now : Int) (db : List Row) (k : PKey)
    (v : PyVal) (data : List (PKey × PyVal)) (e : Option Int) (sec : Option Str) :
    (c.defaultExpires = none →
      NewCache.set c now db k v none sec = .error .missingExpiry ∧
      NewCache.set_many c now db data none sec = .error .missingExpiry) ∧
    (e.isSome ∨ c.defaultExpires.isSome →
      NewCache.set c now db k v e sec ≠ .error .missingExpiry ∧
      NewCache.set_many c now db data e sec ≠ .error .missingExpiry) := by
  constructor
  · intro hd
    have hexp : c._get_expiry none = .error .missingExpiry := by
      rw [NewCache._get_expiry, hd]
    exact ⟨set_eq_of_expiry_err c now db k v none _ sec hexp,
      set_many_eq_of_expiry_err c now db data none _ sec hexp⟩
  · intro he
    have hexp : ∃ e0, c._get_expiry e = .ok e0 := by
      cases e with
      | some e1 => exact ⟨e1, rfl⟩
      | none =>
        rcases he with h | h
        · simp at h
        · rcases Option.isSome_iff_exists.mp h with ⟨d, hd⟩
          exact ⟨d, by rw [NewCache._get_expiry, hd]⟩
    obtain ⟨e0, he0⟩ := hexp
    constructor
    · rw [set_eq_of_expiry c now db k v e e0 sec he0]
      exact sqlInsert_ne_missing _ _
    · rw [set_many_eq_of_expiry c now db data e e0 sec he0]
      exact foldlM_sqlInsert_ne_missing _ _

/-- Applying `set_missing_expiry` concretely: no default and no explicit
expiry errors; an explicit expiry does not raise the missing-expiry
error. -/
theorem set_missing_expiry_witness :
    ((⟨none, none⟩ : NewCache).defaultExpires = none ∧
      NewCache.set ⟨none, none⟩ 0 [] (.kstr "k".toList) (.pyint 1) none none
        = .error .missingExpiry) ∧
    ((some 5 : Option Int).isSome ∨ (⟨none, none⟩ : NewCache).defaultExpires.isSome) ∧
    NewCache.set ⟨none, none⟩ 0 [] (.kstr "k".toList) (.pyint 1) (some 5) none
      ≠ .error .missingExpiry :=
  ⟨⟨rfl, ((set_missing_expiry ⟨none, none⟩ 0 [] (.kstr "k".toList) (.pyint 1) []
      none none).1 rfl).1⟩,
    Or.inl rfl,
    ((set_missing_expiry ⟨none, none⟩ 0 [] (.kstr "k".toList) (.pyint 1) []
      (some 5) none).2 (Or.inl rfl)).1⟩

/-- C8: migrating a fresh (version-0) store and re-running the migration
on the already-migrated store both succeed and produce the very same
schema, whose recorded version is the compiled-in current version; and
once the recorded version has reached the current version no patch set
is selected for (re)application. -/
theorem check_version_idempotent (now : Int) :
    CacheBase.check_version now freshStore = .ok migratedStore ∧
    CacheBase.check_version now migratedStore = .ok migratedStore ∧
    readVersion migratedStore = CacheBase.CURRENT_VERSION ∧
    (∀ v : Int, CacheBase.CURRENT_VERSION ≤ v → selectedQueries v = []) := by
  refine ⟨rfl, rfl, rfl, fun v hv => ?_⟩
  have hfilter : CacheBase.UPDATES.filter (fun p => v < p.1) = [] := by
    rw [CacheBase.UPDATES]
    rw [CacheBase.CURRENT_VERSION] at hv
    simp only [List.filter]
    rw [decide_eq_false (by omega)]
  rw [selectedQueries, hfilter]
  rfl

/-- Applying `check_version_idempotent`: at recorded version 5 no patch
set is selected. -/
theorem check_version_idempotent_witness :
    CacheBase.CURRENT_VERSION ≤ (5 : Int) ∧ selectedQueries 5 = [] :=
  ⟨by decide, (check_version_idempotent 0).2.2.2 5 (by decide)⟩

/-- Exactly one of the three value slots (`blobdata`, `intdata`,
`stringdata`) is non-null. -/
def oneOfThree (fields : Option (List Tok) × Option Int × Option Str) : Prop :=
  (fields.1.isSome ∧ fields.2.1 = none ∧ fields.2.2 = none) ∨
  (fields.1 = none ∧ fields.2.1.isSome ∧ fields.2.2 = none) ∨
  (fields.1 = none ∧ fields.2.1 = none ∧ fields.2.2.isSome)

/-- The encoder always fills exactly one slot. -/
theorem oneOfThree_from_python (v : PyVal) : oneOfThree (NewCache.from_python v) := by
  cases v <;> simp [NewCache.from_python, oneOfThree]

/-- A batch of INSERTs whose inserted rows all satisfy `P` preserves a
rowwise invariant `P` of the table. -/
theorem foldlM_sqlInsert_preserves (P : Row → Prop) (params : List Row) :
    ∀ (db1 db2 : List Row), (∀ r ∈ db1, P r) → (∀ r ∈ params, P r) →
      params.foldlM sqlInsert db1 = .ok db2 → ∀ r ∈ db2, P r := by
  induction params with
  | nil =>
    intro db1 db2 h1 _ hf
    cases hf
    exact h1
  | cons p tl ih =>
    intro db1 db2 h1 h2 hf
    rw [List.foldlM_cons] at hf
    cases hins : sqlInsert db1 p with
    | error err =>
      rw [hins] at hf
      cases hf
    | ok db3 =>
      rw [hins] at hf
      have hdb3 : ∀ r ∈ db3, P r := by
        rw [sqlInsert] at hins
        split at hins
        · cases hins
        · cases hins
          intro r hr
          rcases List.mem_append.mp hr with h | h
          · exact h1 r h
          · rw [List.mem_singleton.mp h]
            exact h2 p (List.mem_cons_self _ _)
      exact ih db3 db2 hdb3 (fun r hr => h2 r (List.mem_cons_of_mem _ hr)) hf

/-- Rows removed by a DELETE leave the remaining rows in the table. -/
theorem mem_of_mem_sqlDeleteKey (db : List Row) (k : Str) (r : Row)
    (h : r ∈ sqlDeleteKey db k) : r ∈ db :=
  List.mem_of_mem_filter h

/-- C9: the codec output fills exactly one of the three slots for every
value, and consequently a successful `set` or `set_many` on a table
whose rows all satisfy the one-of-three invariant yields a table whose
rows all satisfy it. -/
theorem set_preserves_one_of_three (c : NewCache) (now : Int) (db db2 : List Row)
    (k : PKey) (v : PyVal) (data : List (PKey × PyVal)) (e : Option Int)
    (sec : Option Str) :
    oneOfThree (NewCache.from_python v) ∧
    ((∀ r ∈ db, oneOfThree (r.blobdata, r.intdata, r.stringdata)) →
      (NewCache.set c now db k v e sec = .ok db2 ∨
       NewCache.set_many c now db data e sec = .ok db2) →
      ∀ r ∈ db2, oneOfThree (r.blobdata, r.intdata, r.stringdata)) := by
  refine ⟨oneOfThree_from_python v, fun hdb hstep => ?_⟩
  cases he : c._get_expiry e with
  | error err =>
    rcases hstep with h | h
    · rw [set_eq_of_expiry_err c now db k v e err sec he] at h
      cases h
    · rw [set_many_eq_of_expiry_err c now db data e err sec he] at h
      cases h
  | ok e0 =>
    rcases hstep with h | h
    · have htail : ∀ (ex : Int) (dbx : List Row),
          dbx = sqlDeleteKey db (pkeyStr k) ++
            [(⟨c._get_key k sec, (NewCache.from_python v).1,
              (NewCache.from_python v).2.1, (NewCache.from_python v).2.2,
              ex⟩ : Row)] →
          ∀ r ∈ dbx, oneOfThree (r.blobdata, r.intdata, r.stringdata) := by
        intro ex dbx hdbx
        subst hdbx
        intro r hr
        rcases List.mem_append.mp hr with hmem | hmem
        · exact hdb r (mem_of_mem_sqlDeleteKey _ _ _ hmem)
        · rw [List.mem_singleton.mp hmem]
          exact oneOfThree_from_python v
      by_cases hgt : e0 > 60 * 60 * 24 * 7
      · rw [set_eq_of_expiry c now db k v e e0 sec he, if_pos hgt, sqlInsert] at h
        split at h
        · cases h
        · cases h
          exact htail _ _ rfl
      · rw [set_eq_of_expiry c now db k v e e0 sec he, if_neg hgt, sqlInsert] at h
        split at h
        · cases h
        · cases h
          exact htail _ _ rfl
    · rw [set_many_eq_of_expiry c now db data e e0 sec he] at h
      refine foldlM_sqlInsert_preserves _ _ _ _ ?_ ?_ h
      · intro r hr
        exact hdb r (List.mem_of_mem_filter hr)
      · intro r hr
        rcases List.mem_map.mp hr with ⟨kv, _, hkv⟩
        rw [← hkv]
        exact oneOfThree_from_python kv.2

/-- Applying `set_preserves_one_of_three` at a concrete call. -/
theorem set_preserves_one_of_three_witness :
    oneOfThree (NewCache.from_python (.pyint 7)) ∧
    ∀ r ∈ [(⟨"k".toList, none, some 7, none, 5⟩ : Row)],
      oneOfThree (r.blobdata, r.intdata, r.stringdata) :=
  ⟨(set_preserves_one_of_three ⟨none, none⟩ 0 []
      [⟨"k".toList, none, some 7, none, 5⟩] (.kstr "k".toList) (.pyint 7) []
      (some 5) none).1,
    (set_preserves_one_of_three ⟨none, none⟩ 0 []
      [⟨"k".toList, none, some 7, none, 5⟩] (.kstr "k".toList) (.pyint 7) []
      (some 5) none).2 (by simp) (Or.inl rfl)⟩

/-- Lemma: `dictInsert` only ever adds the inserted key; all other result keys
come from the original dict. -/
theorem dictInsert_keys (d : List (Str × PyVal)) (k : Str) (v : PyVal)
    (P : Str → Prop) (hd : ∀ kv ∈ d, P kv.1) (hk : P k) :
    ∀ kv ∈ dictInsert d k v, P kv.1 := by
  intro kv hkv
  rw [dictInsert] at hkv
  split at hkv
  · rcases List.mem_map.mp hkv with ⟨kv0, hkv0, hkv1⟩
    subst hkv1
    by_cases hkk : (kv0.1 == k) = true
    · rw [if_pos hkk]
      exact hk
    · rw [if_neg hkk]
      exact hd kv0 hkv0
  · rcases List.mem_append.mp hkv with h | h
    · exact hd kv h
    · rw [List.mem_singleton.mp h]
      exact hk

/-- Every key of the dict accumulated by the `get_many` row loop is the
`_reverse_key` image of one of the processed rows (or was already in the
accumulator). -/
theorem get_many_fold_keys (c : NewCache) (sec : Option Str) (P : Str → Prop)
    (rows : List Row) :
    ∀ (acc res : List (Str × PyVal)),
      (∀ kv ∈ acc, P kv.1) →
      (∀ r ∈ rows, P (c._reverse_key r.key sec)) →
      rows.foldlM (fun data r => do
        let v ← NewCache.to_python (r.blobdata, r.intdata, r.stringdata)
        pure (dictInsert data (c._reverse_key r.key sec) v)) acc = .ok res →
      ∀ kv ∈ res, P kv.1 := by
  induction rows with
  | nil =>
    intro acc res hacc _ hf
    cases hf
    exact hacc
  | cons r tl ih =>
    intro acc res hacc hrows hf
    rw [List.foldlM_cons] at hf
    cases htp : NewCache.to_python (r.blobdata, r.intdata, r.stringdata) with
    | error err =>
      rw [htp] at hf
      cases hf
    | ok v =>
      rw [htp] at hf
      exact ih (dictInsert acc (c._reverse_key r.key sec) v) res
        (dictInsert_keys _ _ _ P hacc (hrows r (List.mem_cons_self _ _)))
        (fun r2 hr2 => hrows r2 (List.mem_cons_of_mem _ hr2)) hf

/-- C10: every key segment is stringified, so a non-string key addresses
exactly the entry addressed by its string form: the full key, `get`,
`set` and `delete_many` are invariant under replacing the key by
`str(key)`, `get_many` is invariant under stringifying every queried
key, and every key of a `get_many` result mapping is the (string)
`_reverse_key` image of a stored row key — so a non-string queried key
never appears as a key of the result mapping. -/
theorem keys_stringified (c : NewCache) (now : Int) (db : List Row) (k : PKey)
    (keys : List PKey) (v : PyVal) (e : Option Int) (d : Option PyVal)
    (sec : Option Str) (ae : Bool) :
    c._get_key k sec = c._get_key (.kstr (pkeyStr k)) sec ∧
    NewCache.get c now db k d sec ae =
      NewCache.get c now db (.kstr (pkeyStr k)) d sec ae ∧
    NewCache.set c now db k v e sec =
      NewCache.set c now db (.kstr (pkeyStr k)) v e sec ∧
    NewCache.delete_many c db [k] sec =
      NewCache.delete_many c db [.kstr (pkeyStr k)] sec ∧
    NewCache.get_many c now db keys sec ae =
      NewCache.get_many c now db (keys.map (fun k2 => PKey.kstr (pkeyStr k2))) sec ae ∧
    (∀ res, NewCache.get_many c now db keys sec ae = .ok res →
      ∀ kv ∈ res, ∃ r ∈ db, kv.1 = c._reverse_key r.key sec) := by
  refine ⟨rfl, rfl, rfl, rfl, ?_, ?_⟩
  · have hmap : (keys.map (fun k2 => PKey.kstr (pkeyStr k2))).map
        (fun k2 => c._get_key k2 sec) = keys.map (fun k2 => c._get_key k2 sec) := by
      rw [List.map_map]
      rfl
    unfold NewCache.get_many
    rw [hmap]
  · intro res hres
    cases ae with
    | true =>
      unfold NewCache.get_many at hres
      rw [if_pos rfl] at hres
      cases hres
    | false =>
      unfold NewCache.get_many at hres
      rw [if_neg (by simp)] at hres
      exact get_many_fold_keys c sec
        (fun s => ∃ r ∈ db, s = c._reverse_key r.key sec) _ [] res
        (by simp) (fun r hr => ⟨r, List.mem_of_mem_filter hr, rfl⟩) hres

/-- Applying `keys_stringified` concretely: querying the integer key `5`
addresses the entry of `"5"` and the result mapping is keyed by the
string. -/
theorem keys_stringified_witness :
    (NewCache._get_key ⟨none, none⟩ (.kint 5) none =
      NewCache._get_key ⟨none, none⟩ (.kstr (pkeyStr (.kint 5))) none) ∧
    (∀ kv ∈ [(("5".toList : Str), PyVal.pyint 3)],
      ∃ r ∈ [(⟨"5".toList, none, some 3, none, 10⟩ : Row)],
        kv.1 = NewCache._reverse_key ⟨none, none⟩ r.key none) :=
  ⟨(keys_stringified ⟨none, none⟩ 0 [⟨"5".toList, none, some 3, none, 10⟩]
      (.kint 5) [.kint 5] (.pyint 7) (some 1) none none false).1,
    (keys_stringified ⟨none, none⟩ 0 [⟨"5".toList, none, some 3, none, 10⟩]
      (.kint 5) [.kint 5] (.pyint 7) (some 1) none none false).2.2.2.2.2
      [(("5".toList : Str), PyVal.pyint 3)] rfl⟩
